import Mathlib

/-!
Verification of the POS analytics pipeline in `src/app.py` against its
natural-language specification.

The relevant parts of the program are shallowly embedded below:

* `PyVal` models the dynamically typed values arriving from the remote
  RPC service (null, booleans, integers, strings, lists).  In Python,
  `isinstance(False, int)` holds, which the embedding reflects through
  `pyIsInt` and the numeric cross-equality in `pyEq`.
* `Order`, `Partner` model the transaction and customer records.
* `customer_data`, `date_data` model the two aggregation folds of
  `generate_excel` (lines 307-336 and 363-373 of app.py).
* `fetch_order_ids`, `fetch_order_details`, `collect_partner_ids` model
  the batched RPC fetch phases, with the remote `search`/`read` calls
  replaced by explicit oracles.
* `format_mobile_number` and `fetch_pos_configs_accept` are direct
  translations of the phone normalization helper and of the client-side
  terminal post-filter.

Loops are embedded with an explicit fuel argument large enough to cover
every reachable iteration so that all definitions reduce in the kernel.
-/

/-- A dynamically typed Python value, as delivered by the RPC layer. -/
inductive PyVal where
  | vNone : PyVal
  | vBool : Bool → PyVal
  | vInt : Int → PyVal
  | vStr : String → PyVal
  | vList : List PyVal → PyVal

/-- Python `isinstance(v, int)`: true for `int` and for `bool`
(Python's `bool` is a subclass of `int`). -/
def pyIsInt : PyVal → Bool
  | .vBool _ => true
  | .vInt _ => true
  | _ => false

/-- Python truthiness: `None` and `False` and `0` and empty containers
are falsy. -/
def pyTruthy : PyVal → Bool
  | .vNone => false
  | .vBool b => b
  | .vInt n => n != 0
  | .vStr s => !s.isEmpty
  | .vList xs => !xs.isEmpty

/-- Numeric view used by Python `==`: booleans compare equal to the
integers 0 and 1. -/
def pyNum : PyVal → Option Int
  | .vBool b => some (if b then 1 else 0)
  | .vInt n => some n
  | _ => none

mutual

/-- Python `==` on the values that occur in this pipeline. -/
def pyEq : PyVal → PyVal → Bool
  | .vNone, .vNone => true
  | .vStr s, .vStr t => s == t
  | .vList xs, .vList ys => pyEqList xs ys
  | a, b =>
    match pyNum a, pyNum b with
    | some x, some y => x == y
    | _, _ => false

/-- Python `==` on lists: elementwise. -/
def pyEqList : List PyVal → List PyVal → Bool
  | [], [] => true
  | a :: as, b :: bs => pyEq a b && pyEqList as bs
  | _, _ => false

end

/-- A `pos.order` record as read over RPC (app.py line 162's field list,
restricted to the fields the aggregation code consumes).  `amount_total`
is `none` when the key is absent, so that `order.get('amount_total', 0)`
becomes `Option.getD 0`; it is modelled as a rational number. -/
structure Order where
  partner_id : PyVal
  config_id : PyVal
  amount_total : Option ℚ
  date_order : PyVal
  pos_reference : String

/-- `order.get('amount_total', 0)`. -/
def amountOf (o : Order) : ℚ := o.amount_total.getD 0

/-- The reference-shape normalization duplicated at app.py lines 184-190,
262-268, 312-318: a non-empty list yields its first element, an
`isinstance(..., int)` value (which includes booleans) yields itself,
anything else yields `None`. -/
def normalize_ref (v : PyVal) : PyVal :=
  match v with
  | .vList (x :: _) => x
  | .vList [] => .vNone
  | .vBool b => .vBool b
  | .vInt n => .vInt n
  | _ => .vNone

/-- A `res.partner` record after the read at app.py lines 209-214. -/
structure Partner where
  name : String
  mobile : String
  email : String

/-- `partner.get('name', '')` on a possibly-empty partner dict. -/
def pName : Option Partner → String
  | some p => p.name
  | none => ""

/-- `partner.get('mobile', '')` on a possibly-empty partner dict. -/
def pMobile : Option Partner → String
  | some p => p.mobile
  | none => ""

/-- `partner.get('email', '')` on a possibly-empty partner dict. -/
def pEmail : Option Partner → String
  | some p => p.email
  | none => ""

/-- Insertion-ordered association list standing for a Python dict with
key equality `keq` (Python dicts preserve insertion order; updating an
existing key keeps its position). -/
def alistGet {K V : Type} (keq : K → K → Bool) (d : List (K × V)) (k : K) :
    Option V :=
  (d.find? (fun kv => keq kv.1 k)).map (fun kv => kv.2)

/-- `defaultdict` access-and-update: mutate the entry for `k` (creating
it from `dflt` first if absent, appended at the end as Python dicts do). -/
def alistUpd {K V : Type} (keq : K → K → Bool) (dflt : V) (f : V → V) (k : K) :
    List (K × V) → List (K × V)
  | [] => [(k, f dflt)]
  | (k', v) :: rest =>
    if keq k' k then (k', f v) :: rest else (k', v) :: alistUpd keq dflt f k rest

/-- One row of the `customer_data` defaultdict of app.py line 307. -/
structure CEntry where
  name : String
  mobile : String
  email : String
  count : ℕ
  total : ℚ
deriving DecidableEq

/-- `lambda: {"name": "", "mobile": "", "email": "", "count": 0, "total": 0.0}` -/
def cDflt : CEntry := ⟨"", "", "", 0, 0⟩

/-- `partner_dict.get(partner_id, {}) if partner_id else {}` (app.py
lines 269, 320). -/
def partnerLookup (pd : List (PyVal × Partner)) (pid : PyVal) : Option Partner :=
  if pyTruthy pid then alistGet pyEq pd pid else none

/-- One iteration of the customer-summary fold (app.py lines 308-336). -/
def customerStep (pd : List (PyVal × Partner)) (d : List (PyVal × CEntry))
    (o : Order) : List (PyVal × CEntry) :=
  let pid := normalize_ref o.partner_id
  let partner := partnerLookup pd pid
  if pyTruthy pid then
    alistUpd pyEq cDflt
      (fun e =>
        { name := pName partner, mobile := pMobile partner,
          email := pEmail partner, count := e.count + 1,
          total := e.total + amountOf o })
      pid d
  else d

/-- The `customer_data` table built by `generate_excel`
(app.py lines 307-336). -/
def customer_data (pd : List (PyVal × Partner)) (orders : List Order) :
    List (PyVal × CEntry) :=
  orders.foldl (customerStep pd) []

/-- The partner-id collection pass of `fetch_related_data`
(app.py lines 180-200): the normalized id of each order is appended when
truthy.  (The subsequent `list(set(...))` deduplication does not change
membership, which is all the claims consult.) -/
def collectStep (acc : List PyVal) (o : Order) : List PyVal :=
  let pid := normalize_ref o.partner_id
  if pyTruthy pid then acc ++ [pid] else acc

/-- See `collectStep`. -/
def collect_partner_ids (orders : List Order) : List PyVal :=
  orders.foldl collectStep []

/-- The customer-related cells of one detail-sheet row
(app.py lines 262-292): `partner_id or ""` for the id cell, and the
`partner.get(..., '')` fields for name/mobile/email. -/
structure DetailCells where
  customer_id : PyVal
  customer_name : String
  mobile : String
  email : String

/-- Builds the customer-related cells of the detail row for one order
(app.py lines 262-292). -/
def detail_cells (pd : List (PyVal × Partner)) (o : Order) : DetailCells :=
  let pid := normalize_ref o.partner_id
  let partner := partnerLookup pd pid
  { customer_id := if pyTruthy pid then pid else .vStr "",
    customer_name := pName partner,
    mobile := pMobile partner,
    email := pEmail partner }

/-! ## BatchFetcher: `fetch_order_ids` (app.py lines 119-149)

The remote `pos.order search` call is modelled as slicing a fixed
underlying id list: `search(offset, limit) = L[offset : offset+limit]`,
which is what a backend answering offset/limit queries consistently over
a fixed result list returns.  The `while True` loop is embedded with a
fuel argument; `L.length + 1` iterations always suffice (each non-final
iteration consumes at least one id when the page size is positive). -/

/-- One remote `search` page: `L[offset : offset + limit]`. -/
def searchPage (L : List ℤ) (B offset : ℕ) : List ℤ :=
  (L.drop offset).take B

/-- The `while True` id-scan loop of `fetch_order_ids`
(app.py lines 125-140): stop when `not batch`, else extend the
accumulator and advance `offset` by `len(batch)`. -/
def fetchIdsGo (L : List ℤ) (B : ℕ) : ℕ → ℕ → List ℤ → List ℤ
  | 0, _, acc => acc
  | fuel + 1, offset, acc =>
    let batch := searchPage L B offset
    if batch.isEmpty then acc
    else fetchIdsGo L B fuel (offset + batch.length) (acc ++ batch)

/-- `fetch_order_ids` against a consistent backend holding id list `L`,
with scan page size `B`. -/
def fetch_order_ids (L : List ℤ) (B : ℕ) : List ℤ :=
  fetchIdsGo L B (L.length + 1) 0 []

/-- Number of `search` RPC calls the id-scan loop issues from a given
offset (same control flow as `fetchIdsGo`). -/
def fetchIdsCallsGo (L : List ℤ) (B : ℕ) : ℕ → ℕ → ℕ
  | 0, _ => 0
  | fuel + 1, offset =>
    let batch := searchPage L B offset
    if batch.isEmpty then 1
    else 1 + fetchIdsCallsGo L B fuel (offset + batch.length)

/-- Total number of `search` RPC calls `fetch_order_ids` issues. -/
def fetch_order_ids_calls (L : List ℤ) (B : ℕ) : ℕ :=
  fetchIdsCallsGo L B (L.length + 1) 0

/-! ## BatchFetcher: `fetch_order_details` (app.py lines 151-174)

`order_ids[i:i+B]` for `i in range(0, len(order_ids), B)` chunks the id
list into groups of `B`.  The remote `pos.order read` call is an oracle
`read : List ℤ → Option (List Order)`; `none` models the call raising an
exception.  In the source the single `try/except` wraps the whole loop,
so an exception in any iteration reaches the handler, which returns `[]`. -/

/-- `[order_ids[i:i+B] for i in range(0, len(order_ids), B)]`
(fuelled; `xs.length` iterations suffice for `0 < B`). -/
def chunksGo (B : ℕ) : ℕ → List ℤ → List (List ℤ)
  | _, [] => []
  | 0, _ :: _ => []
  | fuel + 1, x :: xs =>
    ((x :: xs).take B) :: chunksGo B fuel ((x :: xs).drop B)

/-- The read-batch chunking of `fetch_order_details`. -/
def chunks (B : ℕ) (xs : List ℤ) : List (List ℤ) :=
  chunksGo B xs.length xs

/-- The chunk-reading loop of `fetch_order_details` (app.py lines
156-168): a raised exception (`read c = none`) propagates to the
function-level `except`, which returns `[]`; a successful non-empty
batch is appended to the accumulator. -/
def detailsGo (read : List ℤ → Option (List Order)) :
    List (List ℤ) → List Order → List Order
  | [], acc => acc
  | c :: cs, acc =>
    match read c with
    | none => []
    | some rs => detailsGo read cs (if rs.isEmpty then acc else acc ++ rs)

/-- `fetch_order_details` with remote `read` oracle and read batch size
`B`. -/
def fetch_order_details (read : List ℤ → Option (List Order))
    (order_ids : List ℤ) (B : ℕ) : List Order :=
  detailsGo read (chunks B order_ids) []

/-! ## `format_mobile_number` (app.py lines 30-45) -/

/-- `re.sub(r'[^\d]', '', str(mobile))` followed by
`cleaned[1:] if cleaned.startswith('0') else cleaned`. -/
def cleanedDigits (mobile : String) : List Char :=
  let cleaned0 := mobile.toList.filter Char.isDigit
  match cleaned0 with
  | '0' :: rest => rest
  | l => l

/-- `format_mobile_number` (app.py lines 30-45).  `if not mobile` is
string falsiness, i.e. emptiness. -/
def format_mobile_number (mobile : String) : String :=
  if mobile = "" then ""
  else
    let cleaned := cleanedDigits mobile
    if !("91".toList.isPrefixOf cleaned) && cleaned.length == 10 then
      String.mk ('+' :: '9' :: '1' :: cleaned)
    else if cleaned.length == 12 && "91".toList.isPrefixOf cleaned then
      String.mk ('+' :: cleaned)
    else mobile

/-! ## TerminalResolver post-filter: `fetch_pos_configs`
(app.py lines 98-113) -/

/-- Python `pat in s` substring containment on character lists. -/
def pyInStr (pat : List Char) : List Char → Bool
  | [] => pat.isPrefixOf []
  | c :: rest => pat.isPrefixOf (c :: rest) || pyInStr pat rest

/-- Python `str.strip()`: remove leading and trailing whitespace. -/
def stripWs (s : List Char) : List Char :=
  ((s.dropWhile Char.isWhitespace).reverse.dropWhile Char.isWhitespace).reverse

/-- `config.get('name', '').strip().lower()`. -/
def normName (rawName : String) : List Char :=
  (stripWs rawName.toList).map Char.toLower

/-- `f' {kw.lower()} ' in f' {name} '`: the keyword occurs in the name
as a standalone space-bounded token (the padding makes tokens at either
end of the name count as space-bounded). -/
def tokenMatch (kw : String) (name : List Char) : Bool :=
  pyInStr (' ' :: (kw.toList.map Char.toLower) ++ [' ']) (' ' :: name ++ [' '])

/-- `name.startswith(kw.lower())`. -/
def startsMatch (kw : String) (name : List Char) : Bool :=
  (kw.toList.map Char.toLower).isPrefixOf name

/-- The client-side acceptance test applied to each fetched config by
`fetch_pos_configs` (app.py lines 98-113): empty names are skipped;
names containing "local expo" under branch "Saree Trails" require a
standalone keyword token; otherwise a keyword prefix or standalone
keyword token is required. -/
def fetch_pos_configs_accept (branch_name : String) (keywords : List String)
    (rawName : String) : Bool :=
  let name := normName rawName
  if name.isEmpty then false
  else if pyInStr "local expo".toList name && branch_name == "Saree Trails" then
    keywords.any (fun kw => tokenMatch kw name)
  else
    keywords.any (fun kw => startsMatch kw name) ||
      keywords.any (fun kw => tokenMatch kw name)

/-- The `BRANCH_KEYWORDS` table (app.py lines 67-75). -/
def BRANCH_KEYWORDS : List (String × List String) :=
  [("CBE", ["CB", "CBE"]), ("TN", ["TN"]), ("MLM", ["MLM"]),
   ("HYD", ["HYD"]), ("JYR", ["JYR"]), ("Vizag", ["Vizag", "VZG"]),
   ("Saree Trails", ["PUNE"])]

/-! ## Daily summary: timestamp parsing and the `date_data` fold
(app.py lines 363-386)

`datetime.strptime(order.get('date_order', ''), "%Y-%m-%d %H:%M:%S")`
is embedded as `parse_date_order`:
* `%Y` matches exactly four digits, and `datetime` requires `1 ≤ year`;
* `%m`, `%d`, `%H`, `%M`, `%S` match one or two digits, with the usual
  calendar/clock ranges (`datetime` validates the day against the month
  length, with leap years, and rejects leap seconds);
* a space in the format matches one or more whitespace characters;
* trailing unconverted text is an error.
A missing key yields `''` (unparsable, `ValueError`); a non-string value
raises `TypeError`; both are caught and the order is skipped. -/

/-- Calendar date (the result of `.date()`). -/
structure DateD where
  year : ℕ
  month : ℕ
  day : ℕ
deriving DecidableEq

/-- Gregorian leap-year rule, as in Python's `calendar.isleap`. -/
def isLeap (y : ℕ) : Bool :=
  y % 4 == 0 && (y % 100 != 0 || y % 400 == 0)

/-- Number of days in a month, as validated by `datetime.__new__`. -/
def daysInMonth (y m : ℕ) : ℕ :=
  if m = 2 then (if isLeap y then 29 else 28)
  else if m = 4 ∨ m = 6 ∨ m = 9 ∨ m = 11 then 30
  else 31

/-- Decimal value of a digit string. -/
def digitsVal (ds : List Char) : ℕ :=
  ds.foldl (fun a c => 10 * a + (c.toNat - 48)) 0

/-- Read a one-or-two-digit field with value in `[lo, hi]`. -/
def parseNum2 (lo hi : ℕ) (cs : List Char) : Option (ℕ × List Char) :=
  let p := cs.span Char.isDigit
  if p.1.length = 0 ∨ 2 < p.1.length then none
  else
    let v := digitsVal p.1
    if v < lo ∨ hi < v then none else some (v, p.2)

/-- Consume one expected literal character. -/
def expectChar (c : Char) : List Char → Option (List Char)
  | d :: rest => if d = c then some rest else none
  | [] => none

/-- Consume one or more whitespace characters. -/
def expectWs (cs : List Char) : Option (List Char) :=
  let p := cs.span Char.isWhitespace
  if p.1.isEmpty then none else some p.2

/-- `datetime.strptime(s, "%Y-%m-%d %H:%M:%S").date()`, or `none` when
parsing raises. -/
def parse_date_order (s : String) : Option DateD :=
  let p0 := s.toList.span Char.isDigit
  if p0.1.length ≠ 4 then none
  else
    let y := digitsVal p0.1
    if y < 1 then none
    else
      match expectChar '-' p0.2 with
      | none => none
      | some r1 =>
        match parseNum2 1 12 r1 with
        | none => none
        | some (m, r2) =>
          match expectChar '-' r2 with
          | none => none
          | some r3 =>
            match parseNum2 1 31 r3 with
            | none => none
            | some (d, r4) =>
              if daysInMonth y m < d then none
              else
                match expectWs r4 with
                | none => none
                | some r5 =>
                  match parseNum2 0 23 r5 with
                  | none => none
                  | some (_, r6) =>
                    match expectChar ':' r6 with
                    | none => none
                    | some r7 =>
                      match parseNum2 0 59 r7 with
                      | none => none
                      | some (_, r8) =>
                        match expectChar ':' r8 with
                        | none => none
                        | some r9 =>
                          match parseNum2 0 59 r9 with
                          | none => none
                          | some (_, r10) =>
                            if r10.isEmpty then some ⟨y, m, d⟩ else none

/-- The date key the analysis fold uses for one order, `none` when the
`try` block raises (`ValueError` for bad text, `TypeError` for a
non-string field). -/
def dateKey (o : Order) : Option DateD :=
  match o.date_order with
  | .vStr s => parse_date_order s
  | _ => none

/-- One row of the `date_data` defaultdict of app.py line 363. -/
structure DEntry where
  count : ℕ
  total : ℚ
deriving DecidableEq

/-- `lambda: {"count": 0, "total": 0.0}` -/
def dDflt : DEntry := ⟨0, 0⟩

/-- One iteration of the daily fold (app.py lines 364-373). -/
def dateStep (d : List (DateD × DEntry)) (o : Order) : List (DateD × DEntry) :=
  match dateKey o with
  | some dt =>
    alistUpd (fun a b => a == b) dDflt
      (fun e => ⟨e.count + 1, e.total + amountOf o⟩) dt d
  | none => d

/-- The `date_data` table built by `generate_excel`
(app.py lines 363-373). -/
def date_data (orders : List Order) : List (DateD × DEntry) :=
  orders.foldl dateStep []

/-- The date order used by Python's `sorted` on `datetime.date` keys. -/
def dateLE (a b : DateD) : Bool :=
  decide (a.year < b.year) ||
    (a.year == b.year &&
      (decide (a.month < b.month) ||
        (a.month == b.month && decide (a.day ≤ b.day))))

/-- `sorted_dates = sorted(date_data.keys())` (app.py line 375), as a
stable merge sort with the date order. -/
def sorted_dates (orders : List Order) : List DateD :=
  ((date_data orders).map (fun kv => kv.1)).mergeSort dateLE

/-! ## ReportRenderer row arithmetic (app.py lines 255-299, 338-355)

Rows are 0-based in `xlsxwriter` calls and 1-based in formula text; the
1-based row of 0-based row `r` is `r + 1`.  On each sheet the header row
is written at 0-based row 3, data rows are enumerated from 0-based row 4
(`enumerate(..., 4)`), and the total row is written at
`last_row = len(...) + 4`.  The total formulas reference the 1-based
range from 5 (`H5`/`E5`/`F5`) to `last_row`. -/

/-- 0-based sheet row of the `i`-th data row (`enumerate(..., 4)`). -/
def dataRow0 (i : ℕ) : ℕ := i + 4

/-- 0-based row where both sheets write the header strings
(`write_row(3, 0, ...)`). -/
def header_row0 : ℕ := 3

/-- `last_row = len(orders) + 4` (app.py line 296). -/
def detail_last_row (orders : List Order) : ℕ := orders.length + 4

/-- The 1-based row interval referenced by the detail-sheet total
formula `=SUM('Order Details'!H5:H{last_row})` (app.py line 298). -/
def detail_sum_range (orders : List Order) : ℕ × ℕ :=
  (5, detail_last_row orders)

/-- `last_row = len(customer_data) + 4` (app.py line 352). -/
def summary_last_row (entries : List (PyVal × CEntry)) : ℕ :=
  entries.length + 4

/-- The 1-based row interval referenced by the customer-summary total
formulas `=SUM('Customer Summary'!E5:E{last_row})` and
`=SUM('Customer Summary'!F5:F{last_row})` (app.py lines 354-355). -/
def summary_sum_range (entries : List (PyVal × CEntry)) : ℕ × ℕ :=
  (5, summary_last_row entries)

/-! ## Concrete inputs used in counterexamples and witnesses -/

/-- A walk-in order carrying a negative amount. -/
def negOrder : Order := ⟨.vNone, .vNone, some (-50), .vNone, ""⟩

/-- A walk-in order carrying amount 0. -/
def zeroOrder : Order := ⟨.vNone, .vNone, some 0, .vNone, ""⟩

/-- A read oracle that succeeds on the chunk `[1]` and raises on any
other chunk. -/
def cexRead : List ℤ → Option (List Order)
  | [1] => some [⟨.vInt 7, .vNone, some 10, .vNone, "ref1"⟩]
  | _ => none

/-- A read oracle that answers every chunk successfully with one record
per requested id. -/
def okRead : List ℤ → Option (List Order)
  | ids => some (ids.map (fun i => ⟨.vInt i, .vNone, some 1, .vNone, ""⟩))

/-- An order whose customer reference is the boolean `False` (the remote
service's encoding of a missing many2one), used to instantiate C10. -/
def falseOrder : Order := ⟨.vBool false, .vNone, some 5, .vNone, ""⟩

/-- A registered-customer order used in witnesses. -/
def custOrder : Order := ⟨.vInt 4, .vNone, some 30, .vNone, ""⟩

/-- The terminal-acceptance rule as the specification words it: the
lowercased, trimmed name must start with a branch keyword or contain a
keyword as a standalone space-bounded token; for branch "Saree Trails",
names containing the phrase "local expo" are accepted only if a keyword
appears as a standalone token, this sub-rule taking precedence over the
generic rule.  Stated for comparison with the code-side
`fetch_pos_configs_accept`. -/
def specTerminalAccepted (branch_name : String) (keywords : List String)
    (rawName : String) : Prop :=
  let name := normName rawName
  if branch_name = "Saree Trails" ∧ pyInStr "local expo".toList name = true then
    ∃ kw ∈ keywords, tokenMatch kw name = true
  else
    (∃ kw ∈ keywords, startsMatch kw name = true) ∨
      (∃ kw ∈ keywords, tokenMatch kw name = true)

section SanityChecks

example : pyEq (.vInt 3) (.vInt 3) = true := by decide
example : pyEq (.vBool true) (.vInt 1) = true := by decide
example : pyEq (.vList [.vInt 3]) (.vList [.vBool true]) = false := by decide
example : pyTruthy (.vBool false) = false := by decide

example :
    customer_data [] [⟨.vList [.vInt 7, .vStr "A"], .vNone, some 5, .vNone, ""⟩,
      ⟨.vInt 7, .vNone, some 3, .vNone, ""⟩] =
    [(.vInt 7, ⟨"", "", "", 2, (8:ℚ)⟩)] := by
  norm_num [customer_data, customerStep, partnerLookup, alistGet, alistUpd,
    cDflt, amountOf, normalize_ref, pyTruthy, pyEq, pyNum, pName, pMobile, pEmail]

example : parse_date_order "2024-01-15 10:30:00" = some ⟨2024, 1, 15⟩ := by decide
example : parse_date_order "2024-1-5 0:0:0" = some ⟨2024, 1, 5⟩ := by decide
example : parse_date_order "2024-02-30 10:30:00" = none := by decide
example : parse_date_order "2024-02-29 10:30:00" = some ⟨2024, 2, 29⟩ := by decide
example : parse_date_order "2023-02-29 10:30:00" = none := by decide
example : parse_date_order "" = none := by decide
example : parse_date_order "2024-01-15 10:30:00x" = none := by decide
example : parse_date_order "2024-01-15" = none := by decide

example : fetch_order_ids [1, 2, 3] 2 = [1, 2, 3] := by decide
example : fetch_order_ids [1, 2, 3, 4] 2 = [1, 2, 3, 4] := by decide
example : fetch_order_ids [] 2 = [] := by decide
example : fetch_order_ids_calls [7] 2 = 2 := by decide
example : fetch_order_ids_calls [7, 8] 2 = 2 := by decide
example : fetch_order_ids_calls [] 2 = 1 := by decide

example : chunks 1 [1, 2] = [[1], [2]] := by decide
example : chunks 2 [1, 2, 3] = [[1, 2], [3]] := by decide
example : (fetch_order_details cexRead [1, 2] 1).length = 0 := by
  norm_num [fetch_order_details, detailsGo, chunks, chunksGo, cexRead]

example : format_mobile_number "9876543210" = "+919876543210" := by decide
example : format_mobile_number "09876543210" = "+919876543210" := by decide
example : format_mobile_number "919876543210" = "+919876543210" := by decide
example : format_mobile_number "12345" = "12345" := by decide
example : format_mobile_number "9198765432" = "9198765432" := by decide

example : fetch_pos_configs_accept "TN" ["TN"] "ANTENNA" = false := by decide
example : fetch_pos_configs_accept "TN" ["TN"] "TN Main" = true := by decide
example : fetch_pos_configs_accept "TN" ["TN"] "Shop TN Extra" = true := by decide
example : fetch_pos_configs_accept "Saree Trails" ["PUNE"] "Local Expo Delhi" = false := by decide
example : fetch_pos_configs_accept "Saree Trails" ["PUNE"] "Big Local Expo PUNE 2" = true := by decide
example : fetch_pos_configs_accept "Saree Trails" ["PUNE"] "PUNE Local Expo" = true := by decide
example : fetch_pos_configs_accept "Saree Trails" ["PUNE"] "PUNEX Local Expo" = false := by decide

end SanityChecks

/-! ## Association-list helper lemmas -/

/-- `alistUpd` preserves a pairwise property as long as the updated
value and the freshly created entry satisfy it. -/
theorem alistUpd_forall {K V : Type} {keq : K → K → Bool} {dflt : V} {f : V → V}
    {k : K} (P : K × V → Prop)
    (hnew : P (k, f dflt)) (hstep : ∀ a b, P (a, b) → P (a, f b)) :
    ∀ (d : List (K × V)), (∀ kv ∈ d, P kv) → ∀ kv ∈ alistUpd keq dflt f k d, P kv := by
  intro d
  induction d with
  | nil =>
    intro _ kv hkv
    simp only [alistUpd, List.mem_singleton] at hkv
    subst hkv
    exact hnew
  | cons hd tl ih =>
    intro hall kv hkv
    obtain ⟨a, b⟩ := hd
    by_cases h : keq a k = true
    · simp only [alistUpd, h, if_true] at hkv
      rcases List.mem_cons.mp hkv with rfl | htl
      · exact hstep a b (hall (a, b) (List.mem_cons_self _ _))
      · exact hall kv (List.mem_cons_of_mem _ htl)
    · simp only [alistUpd, h, if_false, Bool.false_eq_true] at hkv
      rcases List.mem_cons.mp hkv with rfl | htl
      · exact hall (a, b) (List.mem_cons_self _ _)
      · exact ih (fun kv hkv => hall kv (List.mem_cons_of_mem _ hkv)) kv htl

/-- Effect of `alistUpd` on an additive aggregate of the stored values:
when the update adds `c` to the aggregate of one value and the default
value has aggregate 0, the whole table's aggregate grows by `c`. -/
theorem alistUpd_map_sum {K V M : Type} [AddCommMonoid M]
    {keq : K → K → Bool} {dflt : V} {f : V → V} {k : K}
    (g : V → M) (c : M) (hf : ∀ v, g (f v) = g v + c) (hd : g dflt = 0) :
    ∀ d : List (K × V),
      ((alistUpd keq dflt f k d).map (fun kv => g kv.2)).sum
        = (d.map (fun kv => g kv.2)).sum + c := by
  intro d
  induction d with
  | nil => simp [alistUpd, hf, hd]
  | cons hd' tl ih =>
    obtain ⟨a, b⟩ := hd'
    by_cases h : keq a k = true
    · simp only [alistUpd, h, if_true, List.map_cons, List.sum_cons, hf]
      exact add_right_comm _ _ _
    · simp only [alistUpd, h, if_false, Bool.false_eq_true, List.map_cons,
        List.sum_cons, ih]
      exact (add_assoc _ _ _).symm

/-! ## Invariants of the aggregation folds -/

/-- Every entry of `customer_data` has a truthy key and a positive
order count: entries are only ever created or touched under
`if partner_id:` and each touch increments `count`. -/
theorem customer_data_inv (pd : List (PyVal × Partner)) (orders : List Order) :
    ∀ kv ∈ customer_data pd orders, pyTruthy kv.1 = true ∧ 0 < kv.2.count := by
  suffices aux : ∀ (os : List Order) (d0 : List (PyVal × CEntry)),
      (∀ kv ∈ d0, pyTruthy kv.1 = true ∧ 0 < kv.2.count) →
      ∀ kv ∈ os.foldl (customerStep pd) d0, pyTruthy kv.1 = true ∧ 0 < kv.2.count by
    intro kv hkv
    exact aux orders [] (by simp) kv hkv
  intro os
  induction os with
  | nil => intro d0 h0; simpa using h0
  | cons o t ih =>
    intro d0 h0
    rw [List.foldl_cons]
    refine ih _ ?_
    intro kv hkv
    by_cases ht : pyTruthy (normalize_ref o.partner_id) = true
    · simp only [customerStep, ht, if_true] at hkv
      refine alistUpd_forall _ ⟨ht, Nat.succ_pos _⟩ ?_ d0 h0 kv hkv
      intro a b hab
      exact ⟨hab.1, Nat.succ_pos _⟩
    · simp only [customerStep, Bool.not_eq_true] at ht
      simp only [customerStep, ht, Bool.false_eq_true, if_false] at hkv
      exact h0 kv hkv

/-- Every id accumulated by the partner-id collection pass is truthy. -/
theorem collect_partner_ids_truthy (orders : List Order) :
    ∀ x ∈ collect_partner_ids orders, pyTruthy x = true := by
  suffices aux : ∀ (os : List Order) (acc : List PyVal),
      (∀ x ∈ acc, pyTruthy x = true) →
      ∀ x ∈ os.foldl collectStep acc, pyTruthy x = true by
    intro x hx
    exact aux orders [] (by simp) x hx
  intro os
  induction os with
  | nil => intro acc h; simpa using h
  | cons o t ih =>
    intro acc h
    rw [List.foldl_cons]
    refine ih _ ?_
    intro x hx
    by_cases ht : pyTruthy (normalize_ref o.partner_id) = true
    · simp only [collectStep, ht, if_true, List.mem_append,
        List.mem_singleton] at hx
      rcases hx with hx | rfl
      · exact h x hx
      · exact ht
    · simp only [collectStep, Bool.not_eq_true] at ht
      simp only [collectStep, ht, Bool.false_eq_true, if_false] at hx
      exact h x hx

/-- A truthy Python value never compares `==`-equal to `0` or `False`. -/
theorem pyEq_falsy_of_truthy {k : PyVal} (hk : pyTruthy k = true) :
    pyEq k (.vInt 0) = false ∧ pyEq k (.vBool false) = false := by
  cases k with
  | vNone => simp [pyTruthy] at hk
  | vBool b =>
    cases b
    · simp [pyTruthy] at hk
    · exact ⟨by decide, by decide⟩
  | vInt n =>
    have hn : n ≠ 0 := by simpa [pyTruthy] using hk
    constructor
    · show (n == 0) = false
      simpa using hn
    · show (n == 0) = false
      simpa using hn
  | vStr s => exact ⟨rfl, rfl⟩
  | vList xs => exact ⟨rfl, rfl⟩

/-! ## Claim C9 -/

/-- C9: every `customer_data` entry is created under `if partner_id:`
with its `count` incremented at creation, so every CustomerSummary row
has `order_count > 0` and `average = total_amount / order_count` never
divides by zero. -/
theorem customer_summary_count_pos (pd : List (PyVal × Partner))
    (orders : List Order) (kv : PyVal × CEntry)
    (h : kv ∈ customer_data pd orders) : 0 < kv.2.count :=
  (customer_data_inv pd orders kv h).2

/-- Witness for C9 at a one-order input whose summary holds a single
entry with `count = 1`. -/
theorem customer_summary_count_pos_witness :
    0 < ((PyVal.vInt 4, (⟨"", "", "", 1, (30 : ℚ)⟩ : CEntry)).2).count :=
  customer_summary_count_pos [] [custOrder] _ (by
    norm_num [customer_data, customerStep, custOrder, partnerLookup, alistGet,
      alistUpd, cDflt, amountOf, normalize_ref, pyTruthy, pName, pMobile, pEmail])

/-! ## Claim C10 -/

/-- C10: a transaction whose customer reference field is the boolean
`False` or the integer `0` is treated as a walk-in everywhere: the shape
normalization classifies it as the bare-`isinstance(..., int)` case and
returns the value itself, that value is falsy, so it is never added to
the partner fetch list, `customer_data` holds no `==`-equal key for it,
and its detail-sheet customer cells are all empty. -/
theorem false_or_zero_partner_is_walk_in (pd : List (PyVal × Partner))
    (orders : List Order) (o : Order)
    (h : o.partner_id = .vBool false ∨ o.partner_id = .vInt 0) :
    normalize_ref o.partner_id = o.partner_id ∧
    pyIsInt o.partner_id = true ∧
    pyTruthy (normalize_ref o.partner_id) = false ∧
    o.partner_id ∉ collect_partner_ids orders ∧
    alistGet pyEq (customer_data pd orders) o.partner_id = none ∧
    detail_cells pd o = ⟨.vStr "", "", "", ""⟩ := by
  have hfalsy : pyTruthy o.partner_id = false := by
    rcases h with h | h <;> rw [h] <;> rfl
  have hnorm : normalize_ref o.partner_id = o.partner_id := by
    rcases h with h | h <;> rw [h] <;> rfl
  refine ⟨hnorm, ?_, ?_, ?_, ?_, ?_⟩
  · rcases h with h | h <;> rw [h] <;> rfl
  · rw [hnorm]; exact hfalsy
  · intro hmem
    have htr := collect_partner_ids_truthy orders _ hmem
    rw [htr] at hfalsy
    exact Bool.noConfusion hfalsy
  · have hkeys : ∀ kv ∈ customer_data pd orders,
        ¬ (pyEq kv.1 o.partner_id = true) := by
      intro kv hkv
      have htr := (customer_data_inv pd orders kv hkv).1
      rcases h with h | h <;> rw [h]
      · simp [(pyEq_falsy_of_truthy htr).2]
      · simp [(pyEq_falsy_of_truthy htr).1]
    simp only [alistGet]
    rw [List.find?_eq_none.mpr hkeys]
    rfl
  · have hf : pyTruthy (normalize_ref o.partner_id) = false := by
      rw [hnorm]; exact hfalsy
    simp [detail_cells, partnerLookup, hf, pName, pMobile, pEmail]

/-- Witness for C10 at a concrete `False`-referenced order among a
two-order list with one registered customer. -/
theorem false_or_zero_partner_is_walk_in_witness :
    normalize_ref falseOrder.partner_id = falseOrder.partner_id ∧
    pyIsInt falseOrder.partner_id = true ∧
    pyTruthy (normalize_ref falseOrder.partner_id) = false ∧
    falseOrder.partner_id ∉ collect_partner_ids [falseOrder, custOrder] ∧
    alistGet pyEq (customer_data [] [falseOrder, custOrder])
      falseOrder.partner_id = none ∧
    detail_cells [] falseOrder = ⟨.vStr "", "", "", ""⟩ :=
  false_or_zero_partner_is_walk_in [] [falseOrder, custOrder] falseOrder
    (Or.inl rfl)

/-! ## Claim C2 -/

/-- Splitting a mapped sum along a Boolean predicate. -/
theorem sum_map_filter_split (l : List Order) (p : Order → Bool)
    (f : Order → ℚ) :
    ((l.filter p).map f).sum + ((l.filter (fun o => !(p o))).map f).sum
      = (l.map f).sum := by
  induction l with
  | nil => simp
  | cons o t ih =>
    by_cases h : p o = true
    · simp only [List.filter_cons, h, Bool.not_true, if_true, Bool.false_eq_true,
        if_false, List.map_cons, List.sum_cons]
      linarith
    · simp only [List.filter_cons, h, Bool.false_eq_true, if_false,
        Bool.not_eq_true] at *
      simp only [List.filter_cons, h, Bool.not_false, if_true, Bool.false_eq_true,
        if_false, List.map_cons, List.sum_cons]
      linarith

/-- A sum of nonnegative rationals vanishes exactly when every term
vanishes. -/
theorem sum_nonneg_eq_zero_iff (l : List ℚ) (h : ∀ x ∈ l, 0 ≤ x) :
    l.sum = 0 ↔ ∀ x ∈ l, x = 0 := by
  induction l with
  | nil => simp
  | cons a t ih =>
    have ha := h a (List.mem_cons_self _ _)
    have ht : ∀ x ∈ t, 0 ≤ x := fun x hx => h x (List.mem_cons_of_mem _ hx)
    have hts : 0 ≤ t.sum := List.sum_nonneg ht
    simp only [List.sum_cons, List.mem_cons]
    constructor
    · intro h0
      have ha0 : a = 0 := by linarith
      have hts0 : t.sum = 0 := by linarith
      intro x hx
      rcases hx with rfl | hx
      · exact ha0
      · exact (ih ht).mp hts0 x hx
    · intro hall
      rw [hall a (Or.inl rfl), zero_add]
      exact (ih ht).mpr (fun x hx => hall x (Or.inr hx))

/-- The customer-summary totals add up to exactly the amounts of the
orders with a truthy resolved customer id. -/
theorem customer_data_total_sum (pd : List (PyVal × Partner))
    (orders : List Order) :
    ((customer_data pd orders).map (fun kv => kv.2.total)).sum
      = ((orders.filter
            (fun o => pyTruthy (normalize_ref o.partner_id))).map amountOf).sum := by
  suffices aux : ∀ (os : List Order) (d0 : List (PyVal × CEntry)),
      ((os.foldl (customerStep pd) d0).map (fun kv => kv.2.total)).sum
        = (d0.map (fun kv => kv.2.total)).sum
          + ((os.filter
                (fun o => pyTruthy (normalize_ref o.partner_id))).map amountOf).sum by
    simpa using aux orders []
  intro os
  induction os with
  | nil => intro d0; simp
  | cons o t ih =>
    intro d0
    rw [List.foldl_cons]
    by_cases ht : pyTruthy (normalize_ref o.partner_id) = true
    · have hstep : ((customerStep pd d0 o).map (fun kv => kv.2.total)).sum
          = (d0.map (fun kv => kv.2.total)).sum + amountOf o := by
        simp only [customerStep, ht, if_true]
        refine alistUpd_map_sum (fun e => e.total) (amountOf o) ?_ ?_ d0
        · intro v
          rfl
        · rfl
      rw [ih, hstep]
      simp only [List.filter_cons, ht, if_true, List.map_cons, List.sum_cons]
      ring
    · have hstep : customerStep pd d0 o = d0 := by
        simp only [customerStep, Bool.not_eq_true] at ht
        simp only [customerStep, ht, Bool.false_eq_true, if_false]
      rw [ih, hstep]
      simp only [customerStep, Bool.not_eq_true] at ht
      simp only [List.filter_cons, ht, Bool.false_eq_true, if_false]

/-- Counterexample to C2 as stated: a single walk-in order of amount
`-50` makes the customer-summary total (0) exceed the transaction total
(-50), and a single walk-in order of amount `0` gives equality even
though not every transaction has a resolved customer. -/
theorem customer_totals_claim_counterexample :
    ¬ (((customer_data [] [negOrder]).map (fun kv => kv.2.total)).sum
        ≤ ([negOrder].map amountOf).sum) ∧
    ((customer_data [] [zeroOrder]).map (fun kv => kv.2.total)).sum
        = ([zeroOrder].map amountOf).sum ∧
    ¬ (∀ o ∈ [zeroOrder], pyTruthy (normalize_ref o.partner_id) = true) := by
  refine ⟨?_, ?_, ?_⟩
  · norm_num [customer_data, customerStep, negOrder, amountOf, normalize_ref,
      pyTruthy]
  · norm_num [customer_data, customerStep, zeroOrder, amountOf, normalize_ref,
      pyTruthy]
  · intro hall
    have := hall zeroOrder (List.mem_singleton.mpr rfl)
    simp [zeroOrder, normalize_ref, pyTruthy] at this

/-- C2 (amended): assuming every order amount (missing read as 0) is
nonnegative, the sum of `customer_data` totals is at most the sum of all
order amounts, with equality exactly when every order either has a
truthy resolved customer id or carries amount 0. -/
theorem customer_totals_le_amended (pd : List (PyVal × Partner))
    (orders : List Order) (h : ∀ o ∈ orders, 0 ≤ amountOf o) :
    ((customer_data pd orders).map (fun kv => kv.2.total)).sum
        ≤ (orders.map amountOf).sum ∧
    (((customer_data pd orders).map (fun kv => kv.2.total)).sum
        = (orders.map amountOf).sum
      ↔ ∀ o ∈ orders,
          pyTruthy (normalize_ref o.partner_id) = true ∨ amountOf o = 0) := by
  have hsplit := sum_map_filter_split orders
    (fun o => pyTruthy (normalize_ref o.partner_id)) amountOf
  have hcust := customer_data_total_sum pd orders
  have hWnn : ∀ x ∈ (orders.filter
      (fun o => !(pyTruthy (normalize_ref o.partner_id)))).map amountOf, 0 ≤ x := by
    intro x hx
    rcases List.mem_map.mp hx with ⟨o, ho, rfl⟩
    exact h o (List.mem_filter.mp ho).1
  have hWs : 0 ≤ ((orders.filter
      (fun o => !(pyTruthy (normalize_ref o.partner_id)))).map amountOf).sum :=
    List.sum_nonneg hWnn
  constructor
  · rw [hcust, ← hsplit]
    linarith
  · rw [hcust]
    constructor
    · intro heq
      have hW0 : ((orders.filter
          (fun o => !(pyTruthy (normalize_ref o.partner_id)))).map amountOf).sum
            = 0 := by linarith
      intro o ho
      by_cases hp : pyTruthy (normalize_ref o.partner_id) = true
      · exact Or.inl hp
      · right
        have hmem : amountOf o ∈ (orders.filter
            (fun o => !(pyTruthy (normalize_ref o.partner_id)))).map amountOf := by
          refine List.mem_map_of_mem _ (List.mem_filter.mpr ⟨ho, ?_⟩)
          simp only [Bool.not_eq_true] at hp
          simp [hp]
        exact (sum_nonneg_eq_zero_iff _ hWnn).mp hW0 _ hmem
    · intro hall
      have hW0 : ((orders.filter
          (fun o => !(pyTruthy (normalize_ref o.partner_id)))).map amountOf).sum
            = 0 := by
        refine (sum_nonneg_eq_zero_iff _ hWnn).mpr ?_
        intro x hx
        rcases List.mem_map.mp hx with ⟨o, ho, rfl⟩
        have hfil := List.mem_filter.mp ho
        rcases hall o hfil.1 with hp | h0
        · exact absurd hfil.2 (by simp [hp])
        · exact h0
      linarith

/-- Witness for the amended C2 at a two-order input (one registered
customer, one zero-amount walk-in). -/
theorem customer_totals_le_amended_witness :
    (∀ o ∈ [custOrder, zeroOrder], 0 ≤ amountOf o) ∧
    (((customer_data [] [custOrder, zeroOrder]).map (fun kv => kv.2.total)).sum
        ≤ ([custOrder, zeroOrder].map amountOf).sum ∧
      (((customer_data [] [custOrder, zeroOrder]).map (fun kv => kv.2.total)).sum
          = ([custOrder, zeroOrder].map amountOf).sum
        ↔ ∀ o ∈ [custOrder, zeroOrder],
            pyTruthy (normalize_ref o.partner_id) = true ∨ amountOf o = 0)) := by
  have h : ∀ o ∈ [custOrder, zeroOrder], 0 ≤ amountOf o := by
    intro o ho
    rcases List.mem_cons.mp ho with rfl | ho
    · norm_num [amountOf, custOrder]
    · rcases List.mem_singleton.mp ho with rfl
      norm_num [amountOf, zeroOrder]
  exact ⟨h, customer_totals_le_amended [] [custOrder, zeroOrder] h⟩

/-! ## Claim C3 -/

/-- With a positive page size, the id-scan loop started at `offset`
returns the accumulator followed by the whole remainder of the
underlying id list, for any sufficient fuel. -/
theorem fetchIdsGo_drains (L : List ℤ) (B : ℕ) (hB : 0 < B) :
    ∀ (fuel offset : ℕ) (acc : List ℤ), L.length ≤ offset + fuel →
      fetchIdsGo L B fuel offset acc = acc ++ L.drop offset := by
  intro fuel
  induction fuel with
  | zero =>
    intro offset acc hle
    have hdrop : L.drop offset = [] := List.drop_eq_nil_of_le (by omega)
    simp [fetchIdsGo, hdrop]
  | succ fuel ih =>
    intro offset acc hle
    by_cases hemp : (searchPage L B offset).isEmpty = true
    · have hnil : searchPage L B offset = [] := List.isEmpty_iff.mp hemp
      have hdrop : L.drop offset = [] := by
        rcases List.take_eq_nil_iff.mp hnil with hB0 | hd
        · omega
        · exact hd
      simp [fetchIdsGo, hemp, hdrop]
    · have hne : searchPage L B offset ≠ [] := by
        intro hcon
        exact hemp (List.isEmpty_iff.mpr hcon)
      have hlen : 0 < (searchPage L B offset).length := List.length_pos.mpr hne
      simp only [fetchIdsGo, hemp, Bool.false_eq_true, if_false]
      rw [ih (offset + (searchPage L B offset).length)
        (acc ++ searchPage L B offset) (by
          simp only [searchPage] at hlen ⊢
          omega)]
      rw [List.append_assoc]
      congr 1
      have hdd : L.drop (offset + (searchPage L B offset).length)
          = (L.drop offset).drop ((L.drop offset).take B).length := by
        rw [List.drop_drop, searchPage]
      rw [hdd, searchPage]
      have hmin : ((L.drop offset).take B).length = min B (L.drop offset).length :=
        List.length_take _ _
      by_cases hble : (L.drop offset).length ≤ B
      · rw [List.take_of_length_le hble, List.drop_length, List.append_nil]
      · have h1 : ((L.drop offset).take B).length = B := by omega
        rw [h1]
        exact List.take_append_drop B (L.drop offset)

/-- C3: against a backend answering offset/limit queries consistently
over a fixed id list `L`, `fetch_order_ids` with a positive scan page
size returns exactly `L` — the full id set, in order, with no
duplicates beyond those of `L`, no gaps, no early stop and no
re-fetching — for every total count (0, short, or an exact multiple of
the page size). -/
theorem fetch_order_ids_drains_all (L : List ℤ) (B : ℕ) (hB : 0 < B) :
    fetch_order_ids L B = L := by
  unfold fetch_order_ids
  rw [fetchIdsGo_drains L B hB (L.length + 1) 0 [] (by omega)]
  simp

/-- Witness for C3 with four ids and page size 2 (the `total` an exact
multiple of the page size). -/
theorem fetch_order_ids_drains_all_witness :
    0 < 2 ∧ fetch_order_ids [10, 20, 30, 40] 2 = [10, 20, 30, 40] :=
  ⟨by decide, fetch_order_ids_drains_all [10, 20, 30, 40] 2 (by decide)⟩

/-! ## Claim C4 -/

/-- Counterexample to C4 as stated: with underlying ids `[7]` and page
size 2, the first page is short but non-empty (length 1 < 2), yet
`fetch_order_ids` issues a second `search` call: the loop does not stop
upon receiving a short page, only upon receiving an empty one. -/
theorem short_page_issues_extra_call :
    (searchPage [7] 2 0).length = 1 ∧ (searchPage [7] 2 0).length < 2 ∧
    fetch_order_ids_calls [7] 2 = 2 := by decide

/-- C4 (amended): the id-scan loop's stop condition is an empty page.
From any state whose next page is short but non-empty, the loop issues
exactly one further `search` call — which necessarily returns the empty
page — and then stops. -/
theorem pagination_stops_on_empty_page (L : List ℤ) (B fuel offset : ℕ)
    (hne : searchPage L B offset ≠ [])
    (hshort : (searchPage L B offset).length < B) :
    fetchIdsCallsGo L B (fuel + 2) offset = 2 := by
  have h1 : ¬ (searchPage L B offset).isEmpty = true := by
    intro hcon
    exact hne (List.isEmpty_iff.mp hcon)
  have hrem : searchPage L B offset = L.drop offset := by
    have hlt : (L.drop offset).length < B := by
      have := List.length_take B (L.drop offset)
      simp only [searchPage] at hshort
      omega
    simp only [searchPage]
    exact List.take_of_length_le (by omega)
  have hempty2 :
      (searchPage L B (offset + (searchPage L B offset).length)).isEmpty = true := by
    apply List.isEmpty_iff.mpr
    rw [hrem]
    simp only [searchPage]
    apply List.take_eq_nil_of_eq_nil
    apply List.drop_eq_nil_of_le
    simp only [List.length_drop]
    omega
  show fetchIdsCallsGo L B (fuel + 1 + 1) offset = 2
  rw [fetchIdsCallsGo]
  simp only [h1, Bool.false_eq_true, if_false]
  rw [fetchIdsCallsGo]
  simp only [hempty2, if_true]

/-- Witness for the amended C4 at ids `[7]`, page size 2: the first page
is short and non-empty and exactly two calls are issued in total. -/
theorem pagination_stops_on_empty_page_witness :
    (searchPage [7] 2 0 ≠ [] ∧ (searchPage [7] 2 0).length < 2) ∧
    fetchIdsCallsGo [7] 2 2 0 = 2 :=
  ⟨by decide, pagination_stops_on_empty_page [7] 2 0 0 (by decide) (by decide)⟩

/-! ## Claim C5 -/

/-- If any chunk's `read` raises, the exception reaches the
function-level `except` and the whole fetch returns `[]`. -/
theorem detailsGo_eq_nil_of_failure (read : List ℤ → Option (List Order)) :
    ∀ (cs : List (List ℤ)) (acc : List Order),
      (∃ c ∈ cs, read c = none) → detailsGo read cs acc = [] := by
  intro cs
  induction cs with
  | nil =>
    intro acc h
    rcases h with ⟨c, hc, _⟩
    simp at hc
  | cons c cs ih =>
    intro acc h
    cases hr : read c with
    | none => simp [detailsGo, hr]
    | some rs =>
      rcases h with ⟨c', hc', hn⟩
      rcases List.mem_cons.mp hc' with rfl | hmem
      · rw [hr] at hn
        exact Option.noConfusion hn
      · simp only [detailsGo, hr]
        exact ih _ ⟨c', hmem, hn⟩

/-- If every chunk's `read` succeeds, the fetch returns the accumulator
followed by all chunk results in order. -/
theorem detailsGo_eq_join_of_success (read : List ℤ → Option (List Order)) :
    ∀ (cs : List (List ℤ)) (acc : List Order),
      (∀ c ∈ cs, read c ≠ none) →
      detailsGo read cs acc = acc ++ (cs.map (fun c => (read c).getD [])).flatten := by
  intro cs
  induction cs with
  | nil => intro acc _; simp [detailsGo]
  | cons c cs ih =>
    intro acc h
    cases hr : read c with
    | none => exact absurd hr (h c (List.mem_cons_self _ _))
    | some rs =>
      simp only [detailsGo, hr]
      rw [ih _ (fun c' h' => h c' (List.mem_cons_of_mem _ h'))]
      by_cases hrs : rs.isEmpty = true
      · have hnil : rs = [] := List.isEmpty_iff.mp hrs
        simp [hnil, hr]
      · simp [hrs, hr, List.append_assoc]

/-- Counterexample to C5 as stated: ids `[1, 2]` with batch size 1 chunk
into `[[1], [2]]`; the read of `[1]` succeeds with one record, the read
of `[2]` raises — and `fetch_order_details` returns `[]`, discarding the
record accumulated from the successful first chunk. -/
theorem chunk_failure_discards_counterexample :
    cexRead [1] = some [⟨.vInt 7, .vNone, some 10, .vNone, "ref1"⟩] ∧
    cexRead [2] = none ∧
    chunks 1 [1, 2] = [[1], [2]] ∧
    fetch_order_details cexRead [1, 2] 1 = [] := by
  refine ⟨rfl, rfl, by decide, ?_⟩
  rfl

/-- C5 (amended): the record-read phase is all-or-nothing.  The single
`try/except` wraps the whole chunk loop, so if the RPC read of any chunk
fails the function returns `[]`, discarding the records of previously
successful chunks; only when every chunk read succeeds are all records
returned, concatenated in chunk order. -/
theorem fetch_order_details_all_or_nothing
    (read : List ℤ → Option (List Order)) (ids : List ℤ) (B : ℕ) :
    ((∃ c ∈ chunks B ids, read c = none) →
      fetch_order_details read ids B = []) ∧
    ((∀ c ∈ chunks B ids, read c ≠ none) →
      fetch_order_details read ids B
        = ((chunks B ids).map (fun c => (read c).getD [])).flatten) := by
  constructor
  · intro h
    exact detailsGo_eq_nil_of_failure read (chunks B ids) [] h
  · intro h
    rw [fetch_order_details, detailsGo_eq_join_of_success read (chunks B ids) [] h]
    simp

/-- Witness for the amended C5: with an always-successful read oracle
over ids `[1, 2, 3]` in batches of 2, the fetch returns the
concatenation of the chunk results. -/
theorem fetch_order_details_all_or_nothing_witness :
    (∀ c ∈ chunks 2 [1, 2, 3], okRead c ≠ none) ∧
    fetch_order_details okRead [1, 2, 3] 2
      = ((chunks 2 [1, 2, 3]).map (fun c => (okRead c).getD [])).flatten := by
  have h : ∀ c ∈ chunks 2 [1, 2, 3], okRead c ≠ none := by
    intro c _
    simp [okRead]
  exact ⟨h, (fetch_order_details_all_or_nothing okRead [1, 2, 3] 2).2 h⟩

/-! ## Claim C6 -/

/-- Counterexample to C6 as stated: "9198765432" cleans to exactly ten
digits, so the claim requires the result "+919198765432"; but the
code's additional `not cleaned.startswith('91')` guard (app.py line 40)
routes any ten-digit number already starting with "91" to the
passthrough branch, returning the input unchanged. -/
theorem mobile_ten_digit_91_counterexample :
    cleanedDigits "9198765432" = "9198765432".toList ∧
    (cleanedDigits "9198765432").length = 10 ∧
    format_mobile_number "9198765432" = "9198765432" ∧
    format_mobile_number "9198765432" ≠ "+919198765432" := by decide

/-- C6 (amended): after stripping non-digits and dropping one leading
"0": an empty input returns ""; a ten-digit remainder NOT already
starting with "91" returns "+91" followed by the digits; a twelve-digit
remainder starting with "91" returns "+" followed by the digits; every
other case — including a ten-digit remainder that already starts with
"91" — returns the original input unchanged. -/
theorem format_mobile_number_cases (m : String) :
    (m = "" → format_mobile_number m = "") ∧
    (m ≠ "" → (cleanedDigits m).length = 10 →
      ¬ ("91".toList.isPrefixOf (cleanedDigits m) = true) →
      format_mobile_number m = String.mk ('+' :: '9' :: '1' :: cleanedDigits m)) ∧
    (m ≠ "" → (cleanedDigits m).length = 12 →
      "91".toList.isPrefixOf (cleanedDigits m) = true →
      format_mobile_number m = String.mk ('+' :: cleanedDigits m)) ∧
    (m ≠ "" →
      ¬ ((cleanedDigits m).length = 10 ∧
          ¬ ("91".toList.isPrefixOf (cleanedDigits m) = true)) →
      ¬ ((cleanedDigits m).length = 12 ∧
          "91".toList.isPrefixOf (cleanedDigits m) = true) →
      format_mobile_number m = m) := by
  refine ⟨?_, ?_, ?_, ?_⟩
  · intro h
    simp only [format_mobile_number, if_pos h]
  · intro hm h10 hpre
    have hp : "91".toList.isPrefixOf (cleanedDigits m) = false := by
      cases hb : "91".toList.isPrefixOf (cleanedDigits m)
      · rfl
      · exact absurd hb hpre
    have hc1 : (!("91".toList.isPrefixOf (cleanedDigits m))
        && ((cleanedDigits m).length == 10)) = true := by
      rw [hp, h10]
      decide
    simp only [format_mobile_number]
    rw [if_neg hm, if_pos hc1]
  · intro hm h12 hpre
    have hc1 : (!("91".toList.isPrefixOf (cleanedDigits m))
        && ((cleanedDigits m).length == 10)) = false := by
      rw [hpre, h12]
      decide
    have hc2 : (((cleanedDigits m).length == 12)
        && "91".toList.isPrefixOf (cleanedDigits m)) = true := by
      rw [hpre, h12]
      decide
    simp only [format_mobile_number]
    rw [if_neg hm, if_neg (ne_true_of_eq_false hc1), if_pos hc2]
  · intro hm hn10 hn12
    have hc1 : (!("91".toList.isPrefixOf (cleanedDigits m))
        && ((cleanedDigits m).length == 10)) = false := by
      by_cases hp : "91".toList.isPrefixOf (cleanedDigits m) = true
      · rw [hp]
        rfl
      · have hp2 : "91".toList.isPrefixOf (cleanedDigits m) = false := by
          cases hb : "91".toList.isPrefixOf (cleanedDigits m)
          · rfl
          · exact absurd hb hp
        have h10 : (cleanedDigits m).length ≠ 10 := fun h => hn10 ⟨h, hp⟩
        have hb10 : ((cleanedDigits m).length == 10) = false := by
          simp [h10]
        rw [hp2, hb10]
        decide
    have hc2 : (((cleanedDigits m).length == 12)
        && "91".toList.isPrefixOf (cleanedDigits m)) = false := by
      by_cases hp : "91".toList.isPrefixOf (cleanedDigits m) = true
      · have h12 : (cleanedDigits m).length ≠ 12 := fun h => hn12 ⟨h, hp⟩
        have hb12 : ((cleanedDigits m).length == 12) = false := by
          simp [h12]
        rw [hb12]
        rfl
      · have hp2 : "91".toList.isPrefixOf (cleanedDigits m) = false := by
          cases hb : "91".toList.isPrefixOf (cleanedDigits m)
          · rfl
          · exact absurd hb hp
        rw [hp2, Bool.and_false]
    simp only [format_mobile_number]
    rw [if_neg hm, if_neg (ne_true_of_eq_false hc1), if_neg (ne_true_of_eq_false hc2)]

/-- Witness for the amended C6 at "09876543210" (leading zero dropped,
ten digits remain, not starting with "91"). -/
theorem format_mobile_number_cases_witness :
    format_mobile_number "09876543210"
      = String.mk ('+' :: '9' :: '1' :: cleanedDigits "09876543210") :=
  (format_mobile_number_cases "09876543210").2.1 (by decide) (by decide) (by decide)

/-! ## Claim C7 -/

/-- A substring occurrence needs at least the pattern's length. -/
theorem pyInStr_length_le (pat : List Char) :
    ∀ s, pyInStr pat s = true → pat.length ≤ s.length := by
  intro s
  induction s with
  | nil =>
    intro h
    simp only [pyInStr, List.isPrefixOf_iff_prefix] at h
    exact h.length_le
  | cons c t ih =>
    intro h
    simp only [pyInStr, Bool.or_eq_true, List.isPrefixOf_iff_prefix] at h
    rcases h with h | h
    · exact h.length_le
    · calc pat.length ≤ t.length := ih h
        _ ≤ (c :: t).length := by simp

/-- C7: the client-side post-filter of `fetch_pos_configs` accepts a
fetched terminal exactly when the specification's rule does — the
lowercased, trimmed name starts with a keyword or contains one as a
standalone space-bounded token, with the "local expo" sub-rule for
branch "Saree Trails" taking precedence — for any branch whose keywords
are non-empty strings (as all `BRANCH_KEYWORDS` entries are). -/
theorem fetch_pos_configs_accept_iff (branch_name : String)
    (keywords : List String) (rawName : String)
    (hkw : ∀ kw ∈ keywords, kw ≠ "") :
    fetch_pos_configs_accept branch_name keywords rawName = true ↔
      specTerminalAccepted branch_name keywords rawName := by
  simp only [fetch_pos_configs_accept, specTerminalAccepted]
  by_cases hname : (normName rawName).isEmpty = true
  · have hn : normName rawName = [] := by
      cases hmm : normName rawName
      · rfl
      · rw [hmm] at hname
        exact absurd hname (by simp)
    rw [if_pos hname, hn]
    have hlocal : pyInStr "local expo".toList ([] : List Char) = false := by decide
    rw [if_neg (by
      intro hcon
      rw [hlocal] at hcon
      exact Bool.false_ne_true hcon.2)]
    constructor
    · intro hcon
      exact absurd hcon Bool.false_ne_true
    · intro hcon
      exfalso
      rcases hcon with ⟨kw, hkwm, hs⟩ | ⟨kw, hkwm, ht⟩
      · have : (kw.toList.map Char.toLower).length ≤ 0 := by
          have := List.isPrefixOf_iff_prefix.mp hs
          simpa using this.length_le
        have hne := hkw kw hkwm
        simp only [List.length_map] at this
        have : kw.toList = [] := List.length_eq_zero.mp (by omega)
        exact hne (by
          have := congrArg String.mk this
          simpa using this)
      · have hlen := pyInStr_length_le _ _ ht
        simp only [List.length_cons, List.length_append,
          List.length_map, List.length_nil] at hlen
        have hne := hkw kw hkwm
        have : kw.toList = [] := List.length_eq_zero.mp (by omega)
        exact hne (by
          have := congrArg String.mk this
          simpa using this)
  · rw [if_neg hname]
    by_cases hsp : (pyInStr "local expo".toList (normName rawName)
        && (branch_name == "Saree Trails")) = true
    · have hsp' : branch_name = "Saree Trails" ∧
          pyInStr "local expo".toList (normName rawName) = true := by
        rw [Bool.and_eq_true] at hsp
        exact ⟨by simpa using hsp.2, hsp.1⟩
      rw [if_pos hsp, if_pos hsp']
      simp only [List.any_eq_true]
    · have hsp' : ¬ (branch_name = "Saree Trails" ∧
          pyInStr "local expo".toList (normName rawName) = true) := by
        intro hcon
        exact hsp (by
          rw [Bool.and_eq_true]
          exact ⟨hcon.2, by simp [hcon.1]⟩)
      rw [if_neg hsp, if_neg hsp']
      simp only [Bool.or_eq_true, List.any_eq_true]

/-- Witness for C7: the generic rule at branch "TN" rejects the
terminal name "ANTENNA" even though it contains "TN" as a substring. -/
theorem fetch_pos_configs_accept_iff_witness :
    (∀ kw ∈ ["TN"], kw ≠ "") ∧
    ((fetch_pos_configs_accept "TN" ["TN"] "ANTENNA" = true) ↔
      specTerminalAccepted "TN" ["TN"] "ANTENNA") :=
  ⟨by decide, fetch_pos_configs_accept_iff "TN" ["TN"] "ANTENNA" (by decide)⟩

/-! ## Claim C1 -/

/-- C1: on both the detail sheet and the customer-summary sheet, the
trailing total formula's 1-based row range `[5, len + 4]` covers exactly
the 1-based rows of the data rows written by `enumerate(..., 4)` — for
0, 1 or any number of data rows — and contains neither the header row
(1-based row 4) nor the total row itself (1-based row `len + 5`). -/
theorem total_formula_ranges_exact (orders : List Order)
    (entries : List (PyVal × CEntry)) (r : ℕ) :
    (((detail_sum_range orders).1 ≤ r ∧ r ≤ (detail_sum_range orders).2) ↔
      ∃ i, i < orders.length ∧ r = dataRow0 i + 1) ∧
    header_row0 + 1 < (detail_sum_range orders).1 ∧
    (detail_sum_range orders).2 < detail_last_row orders + 1 ∧
    (((summary_sum_range entries).1 ≤ r ∧ r ≤ (summary_sum_range entries).2) ↔
      ∃ i, i < entries.length ∧ r = dataRow0 i + 1) ∧
    header_row0 + 1 < (summary_sum_range entries).1 ∧
    (summary_sum_range entries).2 < summary_last_row entries + 1 := by
  refine ⟨?_, ?_, ?_, ?_, ?_, ?_⟩
  · simp only [detail_sum_range, detail_last_row, dataRow0]
    constructor
    · intro ⟨h1, h2⟩
      exact ⟨r - 5, by omega, by omega⟩
    · rintro ⟨i, hi, rfl⟩
      omega
  · simp [detail_sum_range, header_row0]
  · simp [detail_sum_range, detail_last_row]
  · simp only [summary_sum_range, summary_last_row, dataRow0]
    constructor
    · intro ⟨h1, h2⟩
      exact ⟨r - 5, by omega, by omega⟩
    · rintro ⟨i, hi, rfl⟩
      omega
  · simp [summary_sum_range, header_row0]
  · simp [summary_sum_range, summary_last_row]

/-! ## Claim C8 -/

/-- The daily counts add up to exactly the number of orders whose
timestamp parses. -/
theorem date_data_count_sum (orders : List Order) :
    ((date_data orders).map (fun kv => kv.2.count)).sum
      = (orders.filter (fun o => (dateKey o).isSome)).length := by
  suffices aux : ∀ (os : List Order) (d0 : List (DateD × DEntry)),
      ((os.foldl dateStep d0).map (fun kv => kv.2.count)).sum
        = (d0.map (fun kv => kv.2.count)).sum
          + (os.filter (fun o => (dateKey o).isSome)).length by
    simpa using aux orders []
  intro os
  induction os with
  | nil => intro d0; simp
  | cons o t ih =>
    intro d0
    rw [List.foldl_cons]
    cases hk : dateKey o with
    | none =>
      have hstep : dateStep d0 o = d0 := by
        simp only [dateStep, hk]
      rw [ih, hstep, List.filter_cons]
      simp [hk]
    | some dt =>
      have hstep : ((dateStep d0 o).map (fun kv => kv.2.count)).sum
          = (d0.map (fun kv => kv.2.count)).sum + 1 := by
        simp only [dateStep, hk]
        refine alistUpd_map_sum (fun e => e.count) 1 ?_ ?_ d0
        · intro v
          rfl
        · rfl
      rw [ih, hstep, List.filter_cons]
      simp only [hk, Option.isSome_some, if_true, List.length_cons]
      omega

/-- Key membership through one `alistUpd` with decidable-equality keys:
the keys afterwards are the old keys plus the updated key. -/
theorem mem_alistUpd_key_iff {V : Type} (dflt : V) (f : V → V) (k : DateD)
    (d : List (DateD × V)) (k' : DateD) :
    (∃ e, (k', e) ∈ alistUpd (fun a b => a == b) dflt f k d) ↔
      (∃ e, (k', e) ∈ d) ∨ k' = k := by
  induction d with
  | nil =>
    simp only [alistUpd, List.mem_singleton, List.not_mem_nil]
    constructor
    · rintro ⟨e, he⟩
      exact Or.inr (congrArg Prod.fst he)
    · rintro (⟨e, he⟩ | rfl)
      · exact absurd he (by simp)
      · exact ⟨f dflt, rfl⟩
  | cons hd tl ih =>
    obtain ⟨a, b⟩ := hd
    by_cases h : (a == k) = true
    · have hak : a = k := by simpa using h
      simp only [alistUpd, h, if_true, List.mem_cons]
      constructor
      · rintro ⟨e, h1 | he⟩
        · exact Or.inr ((congrArg Prod.fst h1).trans hak)
        · exact Or.inl ⟨e, Or.inr he⟩
      · rintro (⟨e, h1 | he⟩ | hkk)
        · refine ⟨f b, Or.inl ?_⟩
          have hk' : k' = a := congrArg Prod.fst h1
          rw [hk']
        · exact ⟨e, Or.inr he⟩
        · refine ⟨f b, Or.inl ?_⟩
          rw [hkk, hak]
    · simp only [alistUpd, h, Bool.false_eq_true, if_false, List.mem_cons]
      constructor
      · rintro ⟨e, h1 | he⟩
        · exact Or.inl ⟨e, Or.inl h1⟩
        · rcases ih.mp ⟨e, he⟩ with ⟨e', he'⟩ | rfl
          · exact Or.inl ⟨e', Or.inr he'⟩
          · exact Or.inr rfl
      · rintro (⟨e, h1 | he⟩ | rfl)
        · exact ⟨e, Or.inl h1⟩
        · rcases ih.mpr (Or.inl ⟨e, he⟩) with ⟨e', he'⟩
          exact ⟨e', Or.inr he'⟩
        · rcases ih.mpr (Or.inr rfl) with ⟨e', he'⟩
          exact ⟨e', Or.inr he'⟩

/-- The keys of `date_data` are exactly the successfully parsed dates
of the input orders. -/
theorem date_data_keys (orders : List Order) (dt : DateD) :
    (∃ e, (dt, e) ∈ date_data orders) ↔ ∃ o ∈ orders, dateKey o = some dt := by
  suffices aux : ∀ (os : List Order) (d0 : List (DateD × DEntry)),
      (∃ e, (dt, e) ∈ os.foldl dateStep d0) ↔
        (∃ e, (dt, e) ∈ d0) ∨ ∃ o ∈ os, dateKey o = some dt by
    have := aux orders []
    simpa using this
  intro os
  induction os with
  | nil => intro d0; simp
  | cons o t ih =>
    intro d0
    rw [List.foldl_cons, ih]
    cases hk : dateKey o with
    | none =>
      have hstep : dateStep d0 o = d0 := by simp only [dateStep, hk]
      rw [hstep]
      constructor
      · rintro (h | ⟨o', ho', ho'k⟩)
        · exact Or.inl h
        · exact Or.inr ⟨o', List.mem_cons_of_mem _ ho', ho'k⟩
      · rintro (h | ⟨o', ho', ho'k⟩)
        · exact Or.inl h
        · rcases List.mem_cons.mp ho' with rfl | hmem
          · rw [hk] at ho'k
            exact Option.noConfusion ho'k
          · exact Or.inr ⟨o', hmem, ho'k⟩
    | some dt' =>
      have hstep : dateStep d0 o
          = alistUpd (fun a b => a == b) dDflt
              (fun e => ⟨e.count + 1, e.total + amountOf o⟩) dt' d0 := by
        simp only [dateStep, hk]
      rw [hstep, mem_alistUpd_key_iff]
      constructor
      · rintro ((h | rfl) | h)
        · exact Or.inl h
        · exact Or.inr ⟨o, List.mem_cons_self _ _, hk⟩
        · exact Or.inr (by
            rcases h with ⟨o', ho', ho'k⟩
            exact ⟨o', List.mem_cons_of_mem _ ho', ho'k⟩)
      · rintro (h | ⟨o', ho', ho'k⟩)
        · exact Or.inl (Or.inl h)
        · rcases List.mem_cons.mp ho' with rfl | hmem
          · rw [hk] at ho'k
            exact Or.inl (Or.inr (Option.some.inj ho'k).symm)
          · exact Or.inr ⟨o', hmem, ho'k⟩

/-- `dateLE` unfolded to arithmetic. -/
theorem dateLE_iff (a b : DateD) :
    dateLE a b = true ↔
      (a.year < b.year ∨ (a.year = b.year ∧
        (a.month < b.month ∨ (a.month = b.month ∧ a.day ≤ b.day)))) := by
  simp [dateLE, Bool.or_eq_true, Bool.and_eq_true, decide_eq_true_eq, beq_iff_eq]

/-- `dateLE` is transitive. -/
theorem dateLE_trans (a b c : DateD) (hab : dateLE a b) (hbc : dateLE b c) :
    dateLE a c := by
  rw [dateLE_iff] at *
  omega

/-- `dateLE` is total. -/
theorem dateLE_total (a b : DateD) : dateLE a b || dateLE b a := by
  rw [Bool.or_eq_true, dateLE_iff, dateLE_iff]
  omega

/-- C8: the daily summary counts exactly the orders whose `date_order`
parses against `"%Y-%m-%d %H:%M:%S"` (unparsable ones are skipped
silently, so the counts add up to the number of parsable orders), a
date appears in the output exactly when some order parsed to it, and
the output rows follow `sorted(date_data.keys())`, ascending. -/
theorem daily_summary_exact (orders : List Order) :
    ((date_data orders).map (fun kv => kv.2.count)).sum
        = (orders.filter (fun o => (dateKey o).isSome)).length ∧
    (∀ dt : DateD, dt ∈ sorted_dates orders ↔ ∃ o ∈ orders, dateKey o = some dt) ∧
    (sorted_dates orders).Pairwise (fun a b => dateLE a b = true) := by
  refine ⟨date_data_count_sum orders, ?_, ?_⟩
  · intro dt
    rw [sorted_dates, List.mem_mergeSort, ← date_data_keys]
    constructor
    · intro h
      rcases List.mem_map.mp h with ⟨kv, hkv, hfst⟩
      refine ⟨kv.2, ?_⟩
      rw [← hfst]
      simpa using hkv
    · rintro ⟨e, he⟩
      exact List.mem_map.mpr ⟨(dt, e), he, rfl⟩
  · exact List.sorted_mergeSort dateLE_trans dateLE_total _
